import Mathlib

/-!
Verification of the locutus anti-flood token interfaces and the contract
runtime result decoding, against a shallow embedding of the source.

The embedding models:
* `chrono::DateTime<Utc>` as a pair of seconds since the Unix epoch (an
  integer, unbounded) and a nanosecond subsecond component.  The calendar
  accessors (`year`, `month`, `day`) are computed with the standard
  proleptic-Gregorian civil-from-days conversion, which agrees with chrono
  on every instant.
* the `Tier` enumeration and its slot validity / normalization arithmetic
  from `modules/antiflood-tokens/interfaces/src/lib.rs`.  Rust `i64`
  division and remainder are truncating, so they are embedded with
  `Int.tdiv` / `Int.tmod`; `u32` field arithmetic is on provably
  non-negative values where truncating and euclidean operations agree.
  Paths on which the Rust source panics (an `unwrap` of `None`, or a `u32`
  subtraction overflow) are embedded as `Option.none`.
* `TokenAssignment`, `TokenAllocationRecord` (the `HashMap` extensionally,
  as a function from `Tier` to an optional assignment list),
  `TokenAllocationSummary`, and `Runtime::update_state` result decoding.
-/

/-- A UTC instant: seconds since the Unix epoch plus a nanosecond
subsecond component, mirroring `chrono::DateTime<Utc>`. -/
structure DateTime where
  secs : Int
  nanos : Nat
  deriving DecidableEq

/-- Embeds `chrono` `second()`: the second-of-minute field. -/
def DateTime.second (t : DateTime) : Int :=
  t.secs.emod 60

/-- Embeds `chrono` `minute()`: the minute-of-hour field. -/
def DateTime.minute (t : DateTime) : Int :=
  (t.secs.emod 3600).ediv 60

/-- Embeds `chrono` `hour()`: the hour-of-day field. -/
def DateTime.hour (t : DateTime) : Int :=
  (t.secs.emod 86400).ediv 3600

/-- Embeds `chrono` `nanosecond()`. -/
def DateTime.nanosecond (t : DateTime) : Nat :=
  t.nanos

/-- Embeds `chrono` `timestamp()`: whole seconds since the epoch. -/
def DateTime.timestamp (t : DateTime) : Int :=
  t.secs

/-- Days since the epoch of the civil date containing this instant
(floor division, matching chrono's internal day split). -/
def DateTime.daysFromEpoch (t : DateTime) : Int :=
  t.secs.fdiv 86400

/-- Civil (proleptic Gregorian) date from a count of days since
1970-01-01, by the standard era-based conversion. -/
def civilFromDays (z0 : Int) : Int × Int × Int :=
  let z := z0 + 719468
  let era := z.fdiv 146097
  let doe := z - era * 146097
  let yoe := (doe - doe.tdiv 1460 + doe.tdiv 36524 - doe.tdiv 146096).tdiv 365
  let y := yoe + era * 400
  let doy := doe - (365 * yoe + yoe.tdiv 4 - yoe.tdiv 100)
  let mp := (5 * doy + 2).tdiv 153
  let d := doy - (153 * mp + 2).tdiv 5 + 1
  let m := if mp < 10 then mp + 3 else mp - 9
  (if m ≤ 2 then y + 1 else y, m, d)

/-- Days since 1970-01-01 of a civil (proleptic Gregorian) date. -/
def daysFromCivil (y m d : Int) : Int :=
  let y1 := if m ≤ 2 then y - 1 else y
  let era := y1.fdiv 400
  let yoe := y1 - era * 400
  let mp := if 2 < m then m - 3 else m + 9
  let doy := (153 * mp + 2).tdiv 5 + d - 1
  let doe := yoe * 365 + yoe.tdiv 4 - yoe.tdiv 100 + doy
  era * 146097 + doe - 719468

/-- Embeds `chrono` `year()`. -/
def DateTime.year (t : DateTime) : Int :=
  (civilFromDays t.daysFromEpoch).1

/-- Embeds `chrono` `month()`. -/
def DateTime.month (t : DateTime) : Int :=
  (civilFromDays t.daysFromEpoch).2.1

/-- Embeds `chrono` `day()`: the day-of-month field. -/
def DateTime.day (t : DateTime) : Int :=
  (civilFromDays t.daysFromEpoch).2.2

/-- Number of days in a month of the proleptic Gregorian calendar. -/
def daysInMonth (y m : Int) : Int :=
  if m = 2 then
    (if y.emod 4 = 0 ∧ (y.emod 100 ≠ 0 ∨ y.emod 400 = 0) then 29 else 28)
  else if m = 4 ∨ m = 6 ∨ m = 9 ∨ m = 11 then 30 else 31

/-- Embeds the source `get_date(y, m, d)`: midnight UTC of the given civil
date.  The source unwraps `NaiveDate::from_ymd_opt`; every call site passes
a valid date, and the embedding is total. -/
def get_date (y m d : Int) : DateTime :=
  ⟨daysFromCivil y m d * 86400, 0⟩

/-- Embeds `chrono` `with_day(d)`: same year, month and time of day with
the day-of-month replaced; `none` when the resulting date does not exist
(chrono returns `None` there and the source would panic on `unwrap`). -/
def DateTime.with_day (t : DateTime) (d : Int) : Option DateTime :=
  if 1 ≤ d ∧ d ≤ daysInMonth t.year t.month then
    some ⟨t.secs + (d - t.day) * 86400, t.nanos⟩
  else
    none

/-- The `Tier` enumeration (`repr(u8)`, discriminants 0 through 14). -/
inductive Tier
  | Min1 | Min5 | Min10 | Min30
  | Hour1 | Hour3 | Hour6 | Hour12
  | Day1 | Day7 | Day15 | Day30 | Day90 | Day180 | Day365
  deriving DecidableEq

/-- Embeds `tier as u8`: the `repr(u8)` discriminant. -/
def Tier.toU8 : Tier → Nat
  | .Min1 => 0 | .Min5 => 1 | .Min10 => 2 | .Min30 => 3
  | .Hour1 => 4 | .Hour3 => 5 | .Hour6 => 6 | .Hour12 => 7
  | .Day1 => 8 | .Day7 => 9 | .Day15 => 10 | .Day30 => 11
  | .Day90 => 12 | .Day180 => 13 | .Day365 => 14

/-- Embeds `Tier::tier_duration`, in whole seconds. -/
def Tier.tier_duration_secs : Tier → Int
  | .Min1 => 60 | .Min5 => 300 | .Min10 => 600 | .Min30 => 1800
  | .Hour1 => 3600 | .Hour3 => 10800 | .Hour6 => 21600 | .Hour12 => 43200
  | .Day1 => 86400 | .Day7 => 604800 | .Day15 => 1296000 | .Day30 => 2592000
  | .Day90 => 7776000 | .Day180 => 15552000 | .Day365 => 31536000

/-- Embeds `Tier::check_is_correct_minute`. -/
def Tier.check_is_correct_minute (dt : DateTime) (base_min : Int) : Bool :=
  dt.second == 0 && dt.nanosecond == 0 && dt.minute.emod base_min == 0

/-- Embeds `Tier::check_is_correct_hour`. -/
def Tier.check_is_correct_hour (dt : DateTime) (base_hour : Int) : Bool :=
  dt.minute == 0 && dt.second == 0 && dt.nanosecond == 0 &&
    dt.hour.emod base_hour == 0

/-- Embeds `Tier::check_is_correct_day`: the anchor is December 31 of the
year before `dt`, `delta.num_days()` is truncating `i64` division of the
second difference, and `%` on `i64` is the truncating remainder. -/
def Tier.check_is_correct_day (dt : DateTime) (base_day : Int) : Bool :=
  let year := get_date (dt.year - 1) 12 31
  let deltaSecs := dt.secs - year.secs
  dt.hour == 0 && dt.minute == 0 && dt.second == 0 && dt.nanosecond == 0 &&
    (deltaSecs.tdiv 86400).tmod base_day == 0

/-- Embeds `Tier::is_valid_slot`. -/
def Tier.is_valid_slot (tier : Tier) (dt : DateTime) : Bool :=
  match tier with
  | .Min1 => dt.nanosecond == 0 && dt.second == 0
  | .Min5 => check_is_correct_minute dt 5
  | .Min10 => check_is_correct_minute dt 10
  | .Min30 => check_is_correct_minute dt 30
  | .Hour1 => dt.nanosecond == 0 && dt.second == 0 && dt.minute == 0
  | .Hour3 => check_is_correct_hour dt 3
  | .Hour6 => check_is_correct_hour dt 6
  | .Hour12 => check_is_correct_hour dt 12
  | .Day1 => dt.nanosecond == 0 && dt.second == 0 && dt.minute == 0 &&
      dt.hour == 0
  | .Day7 => check_is_correct_day dt 7
  | .Day15 => check_is_correct_day dt 15
  | .Day30 => check_is_correct_day dt 30
  | .Day90 => check_is_correct_day dt 90
  | .Day180 => check_is_correct_day dt 180
  | .Day365 => check_is_correct_day dt 365

/-- Embeds `Tier::normalize_to_next_minute`.  `with_second(0)` clears the
second field, `trunc_subsecs(0)` clears the nanoseconds, and
`with_minute(minute - remainder)` shifts the minute field down by the
remainder (always in range, so the source `unwrap` succeeds). -/
def Tier.normalize_to_next_minute (tier : Tier) (time : DateTime)
    (base_minute : Int) : DateTime :=
  let is_rounded := time.minute.emod base_minute == 0 &&
    time.second == 0 && time.nanosecond == 0
  if is_rounded then time
  else
    let t1 : DateTime := ⟨time.secs - time.secs.emod 60, 0⟩
    let rem := t1.minute.emod base_minute
    if rem == 0 then t1
    else ⟨t1.secs - rem * 60 + tier.tier_duration_secs, 0⟩

/-- Embeds `Tier::normalize_to_next_hour`.  `with_second(0).with_minute(0)`
clears the sub-hour seconds, and `with_hour(hour - remainder)` shifts the
hour field down by the remainder (always in range). -/
def Tier.normalize_to_next_hour (tier : Tier) (time : DateTime)
    (base_hour : Int) : DateTime :=
  let is_rounded := time.hour.emod base_hour == 0 && time.minute == 0 &&
    time.second == 0 && time.nanosecond == 0
  if is_rounded then time
  else
    let t1 : DateTime := ⟨time.secs - time.secs.emod 3600, 0⟩
    let rem := t1.hour.emod base_hour
    if rem == 0 then t1
    else ⟨t1.secs - rem * 3600 + tier.tier_duration_secs, 0⟩

/-- Embeds `Tier::normalize_to_next_day`.  The result is `none` exactly
where the Rust source panics: `time.day() - remainder_days` is a `u32`
subtraction that overflows when the remainder exceeds the day-of-month,
and `with_day` yields `None` (unwrapped by the source) when the shifted
day-of-month is 0 or otherwise invalid. -/
def Tier.normalize_to_next_day (tier : Tier) (time : DateTime)
    (base_day : Int) : Option DateTime :=
  let year := get_date (time.year - 1) 12 31
  let deltaDays := (time.secs - year.secs).tdiv 86400
  let is_rounded := time.hour == 0 && time.minute == 0 && time.second == 0 &&
    time.nanosecond == 0 && deltaDays.tmod base_day == 0
  if is_rounded then some time
  else
    let t1 : DateTime := ⟨time.secs - time.secs.emod 3600, 0⟩
    let rem := deltaDays.tmod base_day
    if rem == 0 then some t1
    else if t1.day < rem then none
    else
      match t1.with_day (t1.day - rem) with
      | none => none
      | some t2 => some ⟨t2.secs + tier.tier_duration_secs, t2.nanos⟩

/-- Embeds `Tier::normalize_to_next`.  Minute and hour tiers always
produce a value; day tiers return `none` on the panicking paths of
`normalize_to_next_day`.  The source's `Min30` arm passes base `15` to the
minute helper; that is reproduced here. -/
def Tier.normalize_to_next (tier : Tier) (time : DateTime) :
    Option DateTime :=
  match tier with
  | .Min1 =>
    let is_rounded := time.hour == 0 && time.second == 0 &&
      time.nanosecond == 0
    if is_rounded then some time
    else some ⟨time.secs - time.secs.emod 60 + 60, 0⟩
  | .Min5 => some (normalize_to_next_minute .Min5 time 5)
  | .Min10 => some (normalize_to_next_minute .Min10 time 10)
  | .Min30 => some (normalize_to_next_minute .Min30 time 15)
  | .Hour1 =>
    let is_rounded := time.hour == 0 && time.minute == 0 &&
      time.second == 0 && time.nanosecond == 0
    if is_rounded then some time
    else some ⟨time.secs - time.secs.emod 3600 + 3600, 0⟩
  | .Hour3 => some (normalize_to_next_hour .Hour3 time 3)
  | .Hour6 => some (normalize_to_next_hour .Hour6 time 6)
  | .Hour12 => some (normalize_to_next_hour .Hour12 time 12)
  | .Day1 =>
    let is_rounded := time.hour == 0 && time.minute == 0 &&
      time.second == 0 && time.nanosecond == 0
    if is_rounded then some time
    else some ⟨time.secs - time.secs.emod 3600 + 86400, 0⟩
  | .Day7 => normalize_to_next_day .Day7 time 7
  | .Day15 => normalize_to_next_day .Day15 time 15
  | .Day30 => normalize_to_next_day .Day30 time 30
  | .Day90 => normalize_to_next_day .Day90 time 90
  | .Day180 => normalize_to_next_day .Day180 time 180
  | .Day365 => normalize_to_next_day .Day365 time 365

/-- Comparison of two `i64` values, mirroring Rust `Ord::cmp`. -/
def cmpInt (a b : Int) : Ordering :=
  if a < b then .lt else if b < a then .gt else .eq

/-- Embeds `chrono` `DateTime` ordering: lexicographic on the instant
(seconds, then subsecond nanoseconds). -/
def DateTime.cmp (a b : DateTime) : Ordering :=
  if a.secs < b.secs then .lt
  else if b.secs < a.secs then .gt
  else if a.nanos < b.nanos then .lt
  else if b.nanos < a.nanos then .gt
  else .eq

/-- Strict instant order on `DateTime` values. -/
def DateTime.lt (a b : DateTime) : Prop :=
  a.secs < b.secs ∨ (a.secs = b.secs ∧ a.nanos < b.nanos)

instance : DecidableRel DateTime.lt := fun a b => by
  unfold DateTime.lt; infer_instance

/-- Embeds `TokenAssignment`.  `assignee`, `signature` and
`assignment_hash` are byte strings; `token_record` is the opaque
`ContractInstanceId`, modelled by its identity. -/
structure TokenAssignment where
  tier : Tier
  time_slot : DateTime
  assignee : List Nat
  signature : List Nat
  assignment_hash : List Nat
  token_record : Nat
  deriving DecidableEq

/-- Placeholder element for out-of-range list indexing (never reached on
the in-bounds indices produced by binary search). -/
def defaultAssignment : TokenAssignment :=
  ⟨.Min1, ⟨0, 0⟩, [], [], [], 0⟩

/-- Embeds `impl Ord for TokenAssignment`: comparison solely by
`time_slot`. -/
def TokenAssignment.cmp (a b : TokenAssignment) : Ordering :=
  DateTime.cmp a.time_slot b.time_slot

/-- Non-strict `time_slot` order on assignments, the sort relation used
by `sort_unstable` through `impl Ord for TokenAssignment`. -/
def slotLE (a b : TokenAssignment) : Prop :=
  a.time_slot.secs < b.time_slot.secs ∨
    (a.time_slot.secs = b.time_slot.secs ∧ a.time_slot.nanos ≤ b.time_slot.nanos)

instance : DecidableRel slotLE := fun a b => by
  unfold slotLE; infer_instance

instance : IsTotal TokenAssignment slotLE where
  total a b := by unfold slotLE; omega

instance : IsTrans TokenAssignment slotLE where
  trans a b c hab hbc := by
    unfold slotLE at *; omega

/-- Strict `time_slot` order on assignments. -/
def slotLT (a b : TokenAssignment) : Prop :=
  DateTime.lt a.time_slot b.time_slot

instance : DecidableRel slotLT := fun a b => by
  unfold slotLT; infer_instance

/-- Overwrites `src.length` bytes of `dst` starting at `pos`, the
semantics of Rust `dst[pos..pos + src.len()].copy_from_slice(src)`. -/
def writeSlice (dst : List Nat) (pos : Nat) (src : List Nat) : List Nat :=
  dst.take pos ++ src ++ dst.drop (pos + src.length)

/-- Little-endian bytes of an `i64` (two's complement), the semantics of
Rust `i64::to_le_bytes`. -/
def i64LeBytes (n : Int) : List Nat :=
  let m := (n.emod 18446744073709551616).toNat
  [m % 256, m / 256 % 256, m / 65536 % 256, m / 16777216 % 256,
   m / 4294967296 % 256, m / 1099511627776 % 256,
   m / 281474976710656 % 256, m / 72057594037927936 % 256]

/-- Embeds `TokenAssignment::to_be_signed`: a 41-byte buffer is zeroed,
then the tier discriminant byte, the little-endian timestamp and the
assignee public key bytes are copied in at cursors 0, 1 and 9. -/
def TokenAssignment.to_be_signed (issue_time : DateTime)
    (assigned_to : List Nat) (tier : Tier) : List Nat :=
  let buf0 := List.replicate 41 0
  let buf1 := writeSlice buf0 0 [tier.toU8]
  let buf2 := writeSlice buf1 1 (i64LeBytes issue_time.timestamp)
  writeSlice buf2 9 assigned_to

/-- Embeds `TokenAssignment::next_slot`. -/
def TokenAssignment.next_slot (a : TokenAssignment) : DateTime :=
  ⟨a.time_slot.secs + a.tier.tier_duration_secs, a.time_slot.nanos⟩

/-- Core loop of Rust `slice::binary_search_by` over the index range
`[lo, hi)`, with `f i` the comparison of element `i` against the target.
The fuel argument dominates the iteration count (`hi - lo` suffices);
`some i` is Rust's `Ok(i)`, `none` is `Err(_)`. -/
def bsLoop (f : Nat → Ordering) : Nat → Nat → Nat → Option Nat
  | 0, _, _ => none
  | fuel + 1, lo, hi =>
    if lo < hi then
      match f ((lo + hi) / 2) with
      | .lt => bsLoop f fuel ((lo + hi) / 2 + 1) hi
      | .eq => some ((lo + hi) / 2)
      | .gt => bsLoop f fuel lo ((lo + hi) / 2)
    else none

/-- Embeds `slice::binary_search` on a timestamp list (`Vec<i64>`),
returning the found index if any. -/
def binarySearchTs (xs : List Int) (target : Int) : Option Nat :=
  bsLoop (fun i => cmpInt (xs.getD i 0) target) xs.length 0 xs.length

/-- Embeds `assignments.binary_search_by(|t| t.time_slot.cmp(&slot))`. -/
def binarySearchSlot (xs : List TokenAssignment) (slot : DateTime) :
    Option Nat :=
  bsLoop (fun i => DateTime.cmp (xs.getD i defaultAssignment).time_slot slot)
    xs.length 0 xs.length

/-- The `tokens_by_tier` hash map of a `TokenAllocationRecord`, modelled
extensionally: each tier maps to its assignment list when present. -/
def RecordMap : Type :=
  Tier → Option (List TokenAssignment)

/-- The tier-to-timestamps map of a `TokenAllocationSummary`, modelled
extensionally. -/
def SummaryMap : Type :=
  Tier → Option (List Int)

namespace TokenAllocationRecord

/-- Embeds `TokenAllocationRecord::new`: every present tier's vector is
sorted by `time_slot` (`sort_unstable` through the `Ord` instance,
modelled by insertion sort over the same ordering). -/
def new (tokens : RecordMap) : RecordMap :=
  fun tier => (tokens tier).map (List.insertionSort slotLE)

/-- Embeds `TokenAllocationRecord::insert`: the given vector is stored
for the tier as-is. -/
def insert (r : RecordMap) (tier : Tier) (assignments : List TokenAssignment) :
    RecordMap :=
  fun t => if t = tier then some assignments else r t

/-- Embeds `TokenAllocationRecord::summarize`: each present tier's
assignments are projected to their epoch-second timestamps in order. -/
def summarize (r : RecordMap) : SummaryMap :=
  fun tier => (r tier).map (List.map fun a => a.time_slot.timestamp)

/-- Embeds `TokenAllocationRecord::delta`: for each tier present in both
the summary and the record, keep the record's assignments whose timestamp
the summary's binary search does not find; tiers absent from either side
are absent from the result. -/
def delta (r : RecordMap) (summary : SummaryMap) : RecordMap :=
  fun tier =>
    match summary tier with
    | none => none
    | some summary_assignments =>
      match r tier with
      | none => none
      | some assigned =>
        some (assigned.filter fun a =>
          !(binarySearchTs summary_assignments a.time_slot.timestamp).isSome)

/-- Embeds `TokenAllocationRecord::assignment_exists`: binary search the
tier's list by `time_slot`, then compare the hit structurally. -/
def assignment_exists (r : RecordMap) (record : TokenAssignment) : Bool :=
  match r record.tier with
  | none => false
  | some assignments =>
    match binarySearchSlot assignments record.time_slot with
    | none => false
    | some idx => decide (assignments.getD idx defaultAssignment = record)

end TokenAllocationRecord

/-- Embeds the `UpdateResult` enumeration of the contract interface. -/
inductive UpdateResult
  | ValidNoChange | ValidUpdate | Invalid
  deriving DecidableEq

/-- Embeds `ExecError` from `crates/locutus-runtime/src/runtime.rs`. -/
inductive ExecError
  | InvalidPutValue
  | InsufficientMemory (req free : Nat)
  | InvalidArrayLength (n : Nat)
  | UnexpectedResult
  deriving DecidableEq

/-- Modelled from the spec: the `UpdateResult` / `i32` mapping lives in
`locutus_stdlib` (its `TryFrom<i32>` impl is not under src/); the spec
fixes only that `UpdateResult` is a closed three-value enumeration over
`i32` whose out-of-range codes fail to decode.  The mapping 0, 1, 2 is
chosen here. -/
def UpdateResult.ofI32 (code : Int) : Option UpdateResult :=
  if code = 0 then some .ValidNoChange
  else if code = 1 then some .ValidUpdate
  else if code = 2 then some .Invalid
  else none

namespace Runtime

/-- Embeds the result handling of `Runtime::update_state`: the guest
entry point is opaque, so its returned `i32` (`code`) and the bytes a
`ValidUpdate` would read back from the state buffer (`updated`) are taken
as inputs.  An undecodable code is the `UnexpectedResult` error, `Invalid`
is the `InvalidPutValue` error, `ValidNoChange` returns the input state
and `ValidUpdate` returns the re-read buffer contents. -/
def update_state (code : Int) (state : List Nat) (updated : List Nat) :
    Except ExecError (List Nat) :=
  match UpdateResult.ofI32 code with
  | none => .error .UnexpectedResult
  | some .ValidNoChange => .ok state
  | some .ValidUpdate => .ok updated
  | some .Invalid => .error .InvalidPutValue

end Runtime

/-- Number of whole days from December 31 of the year before `dt` up to
`dt`, the day count named by the specification of the day tiers. -/
def wholeDaysSincePrevDec31 (dt : DateTime) : Int :=
  (dt.secs - (get_date (dt.year - 1) 12 31).secs).tdiv 86400

/-- Day-tier slot validity as the specification words it: the hour,
minute, second and nanosecond are all zero and the whole-day count since
the previous year's December 31 is a multiple of the base. -/
def dayValidClaim (dt : DateTime) (base : Int) : Bool :=
  dt.hour == 0 && dt.minute == 0 && dt.second == 0 && dt.nanosecond == 0 &&
    (wholeDaysSincePrevDec31 dt).tmod base == 0

/-! Helper lemmas on the comparison functions, list indexing and the
binary search loop. -/

theorem cmpInt_eq_iff (a b : Int) : cmpInt a b = .eq ↔ a = b := by
  unfold cmpInt
  split_ifs <;> simp <;> omega

theorem cmpInt_lt_iff (a b : Int) : cmpInt a b = .lt ↔ a < b := by
  unfold cmpInt
  split_ifs <;> simp <;> omega

theorem cmpInt_gt_iff (a b : Int) : cmpInt a b = .gt ↔ b < a := by
  unfold cmpInt
  split_ifs <;> simp <;> omega

theorem DateTime.cmp_eq_iff (a b : DateTime) : DateTime.cmp a b = .eq ↔ a = b := by
  cases a with
  | mk as an =>
    cases b with
    | mk bs bn =>
      unfold DateTime.cmp
      split_ifs <;> simp_all <;> omega

theorem DateTime.cmp_lt_iff (a b : DateTime) :
    DateTime.cmp a b = .lt ↔ DateTime.lt a b := by
  cases a with
  | mk as an =>
    cases b with
    | mk bs bn =>
      unfold DateTime.cmp DateTime.lt
      split_ifs <;> simp_all <;> omega

theorem DateTime.cmp_gt_iff (a b : DateTime) :
    DateTime.cmp a b = .gt ↔ DateTime.lt b a := by
  cases a with
  | mk as an =>
    cases b with
    | mk bs bn =>
      unfold DateTime.cmp DateTime.lt
      split_ifs <;> simp_all <;> omega

theorem DateTime.lt_trans {a b c : DateTime} (h1 : DateTime.lt a b)
    (h2 : DateTime.lt b c) : DateTime.lt a c := by
  unfold DateTime.lt at *
  omega

theorem DateTime.lt_irrefl (a : DateTime) : ¬ DateTime.lt a a := by
  unfold DateTime.lt
  omega

theorem getD_mem {α : Type} (xs : List α) (i : Nat) (d : α)
    (h : i < xs.length) : xs.getD i d ∈ xs := by
  rw [List.getD_eq_getElem xs d h]
  exact List.getElem_mem h

theorem pairwise_getD {α : Type} {R : α → α → Prop} {xs : List α}
    (h : xs.Pairwise R) (d : α) {p q : Nat} (hpq : p < q)
    (hq : q < xs.length) : R (xs.getD p d) (xs.getD q d) := by
  rw [List.getD_eq_getElem xs d (by omega), List.getD_eq_getElem xs d hq]
  exact List.pairwise_iff_getElem.mp h p q (by omega) hq hpq

theorem bsLoop_some (f : Nat → Ordering) :
    ∀ (fuel lo hi i : Nat), bsLoop f fuel lo hi = some i →
      lo ≤ i ∧ i < hi ∧ f i = .eq := by
  intro fuel
  induction fuel with
  | zero =>
    intro lo hi i h
    simp [bsLoop] at h
  | succ n ih =>
    intro lo hi i h
    unfold bsLoop at h
    split at h
    · split at h
      · rename_i hlohi heq
        obtain ⟨h1, h2, h3⟩ := ih _ _ _ h
        exact ⟨by omega, h2, h3⟩
      · rename_i hlohi heq
        have hi' : i = (lo + hi) / 2 := by
          cases h
          rfl
        refine ⟨by omega, by omega, by rw [hi']; exact heq⟩
      · rename_i hlohi heq
        obtain ⟨h1, h2, h3⟩ := ih _ _ _ h
        exact ⟨by omega, by omega, h3⟩
    · cases h

theorem bsLoop_none (f : Nat → Ordering) :
    ∀ (fuel lo hi : Nat), hi - lo ≤ fuel →
      (∀ p q, lo ≤ p → p ≤ q → q < hi → f p = .gt → f q = .gt) →
      (∀ p q, lo ≤ p → p ≤ q → q < hi → f q = .lt → f p = .lt) →
      bsLoop f fuel lo hi = none →
      ∀ j, lo ≤ j → j < hi → f j ≠ .eq := by
  intro fuel
  induction fuel with
  | zero =>
    intro lo hi hfuel _ _ _ j hj1 hj2
    omega
  | succ n ih =>
    intro lo hi hfuel hgt hlt h j hj1 hj2 hfj
    unfold bsLoop at h
    rw [if_pos (by omega : lo < hi)] at h
    split at h
    · rename_i hmid
      by_cases hjm : j ≤ (lo + hi) / 2
      · have : f j = .lt := hlt j ((lo + hi) / 2) hj1 hjm (by omega) hmid
        rw [hfj] at this
        cases this
      · exact ih ((lo + hi) / 2 + 1) hi (by omega)
          (fun p q hp hpq hq => hgt p q (by omega) hpq hq)
          (fun p q hp hpq hq => hlt p q (by omega) hpq hq)
          h j (by omega) hj2 hfj
    · cases h
    · rename_i hmid
      by_cases hjm : (lo + hi) / 2 ≤ j
      · have : f j = .gt := hgt ((lo + hi) / 2) j (by omega) hjm hj2 hmid
        rw [hfj] at this
        cases this
      · exact ih lo ((lo + hi) / 2) (by omega)
          (fun p q hp hpq hq => hgt p q hp hpq (by omega))
          (fun p q hp hpq hq => hlt p q hp hpq (by omega))
          h j hj1 (by omega) hfj

theorem pairwise_le_getD (xs : List Int) (hs : xs.Pairwise (· ≤ ·))
    {p q : Nat} (hpq : p ≤ q) (hq : q < xs.length) :
    xs.getD p 0 ≤ xs.getD q 0 := by
  rcases Nat.eq_or_lt_of_le hpq with h | h
  · rw [h]
  · exact pairwise_getD hs 0 h hq

/-- On a list sorted ascending, the source's `binary_search` finds the
target exactly when the target is a member. -/
theorem binarySearchTs_isSome_iff (xs : List Int) (t : Int)
    (hs : xs.Pairwise (· ≤ ·)) :
    (binarySearchTs xs t).isSome = true ↔ t ∈ xs := by
  constructor
  · intro h
    obtain ⟨i, hi⟩ := Option.isSome_iff_exists.mp h
    obtain ⟨h1, h2, h3⟩ := bsLoop_some _ _ _ _ _ hi
    have hget : xs.getD i 0 = t := (cmpInt_eq_iff _ _).mp h3
    rw [List.getD_eq_getElem xs 0 h2] at hget
    exact hget ▸ List.getElem_mem h2
  · intro hmem
    by_contra hnone
    have hn : binarySearchTs xs t = none := by
      cases hbs : binarySearchTs xs t with
      | none => rfl
      | some i => rw [hbs] at hnone; simp at hnone
    obtain ⟨n, hlen, hn_eq⟩ := List.mem_iff_getElem.mp hmem
    refine bsLoop_none _ xs.length 0 xs.length (by omega)
      (fun p q hp hpq hq hf => ?_) (fun p q hp hpq hq hf => ?_) hn
      n (by omega) hlen ?_
    · rw [cmpInt_gt_iff] at hf ⊢
      exact lt_of_lt_of_le hf (pairwise_le_getD xs hs hpq hq)
    · rw [cmpInt_lt_iff] at hf ⊢
      exact lt_of_le_of_lt (pairwise_le_getD xs hs hpq hq) hf
    · show cmpInt (xs.getD n 0) t = .eq
      rw [List.getD_eq_getElem xs 0 hlen, hn_eq, cmpInt_eq_iff]

/-- A successful `binary_search_by` on `time_slot` returns an in-bounds
index whose element carries the searched slot. -/
theorem binarySearchSlot_some (xs : List TokenAssignment) (slot : DateTime)
    (i : Nat) (h : binarySearchSlot xs slot = some i) :
    i < xs.length ∧ (xs.getD i defaultAssignment).time_slot = slot := by
  obtain ⟨h1, h2, h3⟩ := bsLoop_some _ _ _ _ _ h
  exact ⟨h2, (DateTime.cmp_eq_iff _ _).mp h3⟩

/-- On a list with strictly increasing slots, a failed `binary_search_by`
means no element carries the searched slot. -/
theorem binarySearchSlot_none (xs : List TokenAssignment) (slot : DateTime)
    (hs : xs.Pairwise slotLT) (h : binarySearchSlot xs slot = none) :
    ∀ a ∈ xs, a.time_slot ≠ slot := by
  intro a hmem heq
  obtain ⟨n, hlen, hn_eq⟩ := List.mem_iff_getElem.mp hmem
  have hmono : ∀ p q, p ≤ q → q < xs.length →
      DateTime.lt (xs.getD p defaultAssignment).time_slot
        (xs.getD q defaultAssignment).time_slot ∨
      (xs.getD p defaultAssignment).time_slot =
        (xs.getD q defaultAssignment).time_slot := by
    intro p q hpq hq
    rcases Nat.eq_or_lt_of_le hpq with h' | h'
    · rw [h']
      right
      rfl
    · left
      exact pairwise_getD hs defaultAssignment h' hq
  refine bsLoop_none _ xs.length 0 xs.length (by omega)
    (fun p q hp hpq hq hf => ?_) (fun p q hp hpq hq hf => ?_) h
    n (by omega) hlen ?_
  · rw [DateTime.cmp_gt_iff] at hf ⊢
    rcases hmono p q hpq hq with h' | h'
    · exact DateTime.lt_trans hf h'
    · rw [← h']
      exact hf
  · rw [DateTime.cmp_lt_iff] at hf ⊢
    rcases hmono p q hpq hq with h' | h'
    · exact DateTime.lt_trans h' hf
    · rw [h']
      exact hf
  · show DateTime.cmp (xs.getD n defaultAssignment).time_slot slot = .eq
    rw [List.getD_eq_getElem xs defaultAssignment hlen, hn_eq, heq,
      DateTime.cmp_eq_iff]

/-- With strictly increasing slots, an assignment is determined within its
list by its `time_slot`. -/
theorem pairwise_slot_inj (xs : List TokenAssignment)
    (hs : xs.Pairwise slotLT) (a b : TokenAssignment) (ha : a ∈ xs)
    (hb : b ∈ xs) (heq : a.time_slot = b.time_slot) : a = b := by
  obtain ⟨i, hi, hia⟩ := List.mem_iff_getElem.mp ha
  obtain ⟨j, hj, hjb⟩ := List.mem_iff_getElem.mp hb
  rcases Nat.lt_trichotomy i j with h | h | h
  · have hlt := List.pairwise_iff_getElem.mp hs i j hi hj h
    rw [hia, hjb] at hlt
    unfold slotLT at hlt
    rw [heq] at hlt
    exact absurd hlt (DateTime.lt_irrefl _)
  · subst h
    exact hia.symm.trans hjb
  · have hlt := List.pairwise_iff_getElem.mp hs j i hj hi h
    rw [hia, hjb] at hlt
    unfold slotLT at hlt
    rw [heq] at hlt
    exact absurd hlt (DateTime.lt_irrefl _)

/-! Claim theorems. -/

/-- C1: the claim that `T.is_valid_slot(T.normalize_to_next(t))` always
holds fails on the code.  `Min30` normalizes with base 15, so
2023-01-01T00:45:00Z is returned unchanged although 45 is not a multiple
of 30; `Day1` never zeroes the hour field, so 2023-01-01T05:00:00Z
normalizes to 2023-01-02T05:00:00Z, which is not a valid `Day1` slot. -/
theorem normalize_to_next_yields_invalid_slot :
    (Tier.Min30.normalize_to_next ⟨1672533900, 0⟩ = some ⟨1672533900, 0⟩ ∧
      Tier.Min30.is_valid_slot ⟨1672533900, 0⟩ = false) ∧
    (Tier.Day1.normalize_to_next ⟨1672549200, 0⟩ = some ⟨1672635600, 0⟩ ∧
      Tier.Day1.is_valid_slot ⟨1672635600, 0⟩ = false) := by
  decide

/-- C2: the claim that `normalize_to_next` is the identity on valid slots
and otherwise yields the smallest strictly greater valid slot fails on the
code.  2023-01-01T13:05:00Z is a valid `Min1` slot, yet `Min1`
normalization moves it to 13:06:00 because its rounding test wrongly
requires `hour == 0`; and `Hour3` maps the invalid 2023-01-01T03:25:00Z to
03:00:00, an instant strictly BEFORE the input. -/
theorem normalize_to_next_violates_next_slot_contract :
    (Tier.Min1.is_valid_slot ⟨1672578300, 0⟩ = true ∧
      Tier.Min1.normalize_to_next ⟨1672578300, 0⟩ = some ⟨1672578360, 0⟩) ∧
    (Tier.Hour3.is_valid_slot ⟨1672543500, 0⟩ = false ∧
      Tier.Hour3.normalize_to_next ⟨1672543500, 0⟩ = some ⟨1672542000, 0⟩ ∧
      DateTime.lt ⟨1672542000, 0⟩ ⟨1672543500, 0⟩) := by
  decide

/-- C3: the claim that `normalize_to_next` is total and panic-free fails
on the code.  For `Day7` at 2023-02-03T00:00:00Z the whole-day distance
from 2022-12-31 is 34, whose remainder modulo 7 is 6, and
`time.day() - remainder_days` is the underflowing `u32` subtraction
`3 - 6`; the embedding returns `none` exactly on that panicking path. -/
theorem day7_normalize_to_next_panics :
    Tier.Day7.normalize_to_next ⟨1675382400, 0⟩ = none := by
  decide

/-- C9: for the day tiers, `is_valid_slot` holds exactly when the hour,
minute, second and nanosecond are zero and the whole-day count since the
previous year's December 31 is a multiple of the base; and the literal
scenarios: `Day7` accepts 2023-01-07T00:00:00Z, rejects
2023-01-08T00:00:00Z, and `Day30` accepts 2023-03-01T00:00:00Z. -/
theorem day_tier_validity_spec :
    (∀ dt : DateTime, Tier.Day7.is_valid_slot dt = dayValidClaim dt 7) ∧
    (∀ dt : DateTime, Tier.Day15.is_valid_slot dt = dayValidClaim dt 15) ∧
    (∀ dt : DateTime, Tier.Day30.is_valid_slot dt = dayValidClaim dt 30) ∧
    (∀ dt : DateTime, Tier.Day90.is_valid_slot dt = dayValidClaim dt 90) ∧
    (∀ dt : DateTime, Tier.Day180.is_valid_slot dt = dayValidClaim dt 180) ∧
    (∀ dt : DateTime, Tier.Day365.is_valid_slot dt = dayValidClaim dt 365) ∧
    Tier.Day7.is_valid_slot ⟨1673049600, 0⟩ = true ∧
    Tier.Day7.is_valid_slot ⟨1673136000, 0⟩ = false ∧
    Tier.Day30.is_valid_slot ⟨1677628800, 0⟩ = true :=
  ⟨fun _ => rfl, fun _ => rfl, fun _ => rfl, fun _ => rfl, fun _ => rfl,
   fun _ => rfl, by decide, by decide, by decide⟩

/-- C10: `TokenAssignment` ordering compares exactly by `time_slot`,
structural equality requires all six fields to agree, and two assignments
sharing a slot while differing elsewhere compare equal under `cmp` yet are
not equal. -/
theorem token_assignment_cmp_and_eq :
    (∀ a b : TokenAssignment,
      TokenAssignment.cmp a b = .eq ↔ a.time_slot = b.time_slot) ∧
    (∀ a b : TokenAssignment,
      a = b ↔ a.tier = b.tier ∧ a.time_slot = b.time_slot ∧
        a.assignee = b.assignee ∧ a.signature = b.signature ∧
        a.assignment_hash = b.assignment_hash ∧
        a.token_record = b.token_record) ∧
    (TokenAssignment.cmp ⟨.Min1, ⟨0, 0⟩, [1], [], [], 0⟩
        ⟨.Min1, ⟨0, 0⟩, [3], [], [], 0⟩ = .eq ∧
      (⟨.Min1, ⟨0, 0⟩, [1], [], [], 0⟩ : TokenAssignment) ≠
        ⟨.Min1, ⟨0, 0⟩, [3], [], [], 0⟩) := by
  refine ⟨fun a b => DateTime.cmp_eq_iff _ _, fun a b => ?_, by decide⟩
  cases a
  cases b
  simp [TokenAssignment.mk.injEq]

/-- C5: `Runtime::update_state` result decoding — a code decoding to
`ValidNoChange` returns the input state unchanged, a code decoding to
`Invalid` fails with `InvalidPutValue`, and a code outside the
`UpdateResult` mapping fails with `UnexpectedResult` and is never a
success. -/
theorem update_state_result_decoding (code : Int) (st upd : List Nat) :
    (UpdateResult.ofI32 code = some .ValidNoChange →
      Runtime.update_state code st upd = .ok st) ∧
    (UpdateResult.ofI32 code = some .Invalid →
      Runtime.update_state code st upd = .error .InvalidPutValue) ∧
    (UpdateResult.ofI32 code = none →
      Runtime.update_state code st upd = .error .UnexpectedResult ∧
        ∀ out, Runtime.update_state code st upd ≠ .ok out) := by
  refine ⟨fun h => ?_, fun h => ?_, fun h => ?_⟩
  · unfold Runtime.update_state
    rw [h]
  · unfold Runtime.update_state
    rw [h]
  · constructor
    · unfold Runtime.update_state
      rw [h]
    · intro out hout
      unfold Runtime.update_state at hout
      rw [h] at hout
      cases hout

/-- Concrete evaluation of C5's three cases at codes 0, 2 and 37. -/
theorem update_state_result_decoding_witness :
    Runtime.update_state 0 [1, 2] [3] = .ok [1, 2] ∧
    Runtime.update_state 2 [1, 2] [3] = .error .InvalidPutValue ∧
    Runtime.update_state 37 [1, 2] [3] = .error .UnexpectedResult :=
  ⟨(update_state_result_decoding 0 [1, 2] [3]).1 (by decide),
   (update_state_result_decoding 2 [1, 2] [3]).2.1 (by decide),
   ((update_state_result_decoding 37 [1, 2] [3]).2.2 (by decide)).1⟩

theorem writeSlice_at (pre mid post src : List Nat)
    (hlen : src.length = mid.length) :
    writeSlice (pre ++ (mid ++ post)) pre.length src = pre ++ (src ++ post) := by
  unfold writeSlice
  rw [List.take_left, hlen, ← List.length_append pre mid,
    ← List.append_assoc, List.drop_left, List.append_assoc]

/-- C4: the amended record invariant — `new` sorts every present tier's
vector by `time_slot`, while `insert` stores the given vector unchanged,
so sortedness survives an `insert` exactly when the inserted vector is
already sorted. -/
theorem record_new_sorts_insert_stores (m r : RecordMap) (tier t2 : Tier)
    (v l : List TokenAssignment) :
    (TokenAllocationRecord.new m t2 = some l → l.Pairwise slotLE) ∧
    ((∀ t3 l3, r t3 = some l3 → l3.Pairwise slotLE) → v.Pairwise slotLE →
      TokenAllocationRecord.insert r tier v t2 = some l →
        l.Pairwise slotLE) ∧
    TokenAllocationRecord.insert r tier v tier = some v := by
  refine ⟨?_, ?_, ?_⟩
  · intro h
    unfold TokenAllocationRecord.new at h
    cases hm : m t2 with
    | none =>
      rw [hm] at h
      cases h
    | some l0 =>
      rw [hm, Option.map_some'] at h
      injection h with h
      exact h ▸ (List.sorted_insertionSort slotLE l0 : List.Pairwise slotLE _)
  · intro hr hv h
    unfold TokenAllocationRecord.insert at h
    by_cases ht : t2 = tier
    · rw [if_pos ht] at h
      injection h with h
      exact h ▸ hv
    · rw [if_neg ht] at h
      exact hr t2 l h
  · unfold TokenAllocationRecord.insert
    rw [if_pos rfl]

/-- C4 counterexample: `insert` stores the caller's vector as-is, so
inserting a vector whose slots are out of order leaves the stored list
unsorted, falsifying the claim that every mutation preserves the
ascending `time_slot` invariant. -/
theorem insert_stores_unsorted_vector :
    TokenAllocationRecord.insert (TokenAllocationRecord.new fun _ => none)
      Tier.Min1
      [⟨.Min1, ⟨60, 0⟩, [2], [], [], 0⟩, ⟨.Min1, ⟨0, 0⟩, [1], [], [], 0⟩]
      Tier.Min1 =
      some [⟨.Min1, ⟨60, 0⟩, [2], [], [], 0⟩,
        ⟨.Min1, ⟨0, 0⟩, [1], [], [], 0⟩] ∧
    ¬ List.Pairwise slotLE
      [⟨.Min1, ⟨60, 0⟩, [2], [], [], 0⟩, ⟨.Min1, ⟨0, 0⟩, [1], [], [], 0⟩] := by
  refine ⟨rfl, ?_⟩
  decide

/-- Concrete instantiation of C4's amended statement: sorting on
construction, preservation under a sorted insert, and verbatim storage. -/
theorem record_new_sorts_insert_stores_witness :
    List.Pairwise slotLE
      [⟨.Min1, ⟨0, 0⟩, [1], [], [], 0⟩, ⟨.Min1, ⟨60, 0⟩, [2], [], [], 0⟩] ∧
    List.Pairwise slotLE [⟨.Min1, ⟨0, 0⟩, [1], [], [], 0⟩] ∧
    TokenAllocationRecord.insert (fun _ => none) Tier.Min1
      [⟨.Min1, ⟨0, 0⟩, [1], [], [], 0⟩] Tier.Min1 =
      some [⟨.Min1, ⟨0, 0⟩, [1], [], [], 0⟩] :=
  ⟨(record_new_sorts_insert_stores
      (fun t => match t with
        | Tier.Min1 => some [⟨.Min1, ⟨60, 0⟩, [2], [], [], 0⟩,
            ⟨.Min1, ⟨0, 0⟩, [1], [], [], 0⟩]
        | _ => none)
      (fun _ => none) Tier.Min1 Tier.Min1 [⟨.Min1, ⟨0, 0⟩, [1], [], [], 0⟩]
      [⟨.Min1, ⟨0, 0⟩, [1], [], [], 0⟩,
        ⟨.Min1, ⟨60, 0⟩, [2], [], [], 0⟩]).1 (by decide),
   (record_new_sorts_insert_stores (fun _ => none) (fun _ => none)
      Tier.Min1 Tier.Min1 [⟨.Min1, ⟨0, 0⟩, [1], [], [], 0⟩]
      [⟨.Min1, ⟨0, 0⟩, [1], [], [], 0⟩]).2.1
      (by intro t3 l3 hcon; simp at hcon) (by decide) (by decide),
   (record_new_sorts_insert_stores (fun _ => none) (fun _ => none)
      Tier.Min1 Tier.Min1 [⟨.Min1, ⟨0, 0⟩, [1], [], [], 0⟩] []).2.2⟩

/-- C6: `to_be_signed` produces exactly 41 bytes — the tier discriminant
byte, then the 8 little-endian bytes of the signed 64-bit epoch-second
timestamp, then the 32 raw assignee public-key bytes. -/
theorem to_be_signed_layout (t : DateTime) (a : List Nat) (tier : Tier)
    (h : a.length = 32) :
    TokenAssignment.to_be_signed t a tier =
      tier.toU8 :: (i64LeBytes t.timestamp ++ a) ∧
    (TokenAssignment.to_be_signed t a tier).length = 41 := by
  have hle : (i64LeBytes t.timestamp).length = 8 := rfl
  have e0 : TokenAssignment.to_be_signed t a tier =
      writeSlice (writeSlice (writeSlice (List.replicate 41 0) 0 [tier.toU8])
        1 (i64LeBytes t.timestamp)) 9 a := rfl
  have e1 : writeSlice (List.replicate 41 0) 0 [tier.toU8] =
      [tier.toU8] ++ List.replicate 40 0 := by
    rw [show (List.replicate 41 0 : List Nat) =
      ([] : List Nat) ++ ([0] ++ List.replicate 40 0) by decide]
    simpa using
      writeSlice_at ([] : List Nat) [0] (List.replicate 40 0) [tier.toU8] rfl
  have e2 : writeSlice ([tier.toU8] ++ List.replicate 40 0) 1
      (i64LeBytes t.timestamp) =
      [tier.toU8] ++ (i64LeBytes t.timestamp ++ List.replicate 32 0) := by
    rw [show (List.replicate 40 0 : List Nat) =
      List.replicate 8 0 ++ List.replicate 32 0 by decide]
    simpa using writeSlice_at [tier.toU8] (List.replicate 8 0)
      (List.replicate 32 0) (i64LeBytes t.timestamp) (by rw [hle]; rfl)
  have e3 : writeSlice
      ([tier.toU8] ++ (i64LeBytes t.timestamp ++ List.replicate 32 0)) 9 a =
      [tier.toU8] ++ (i64LeBytes t.timestamp ++ a) := by
    have step := writeSlice_at ([tier.toU8] ++ i64LeBytes t.timestamp)
      (List.replicate 32 0) [] a (by rw [h]; rfl)
    rw [List.length_append, hle] at step
    simpa [List.append_assoc] using step
  have hmain : TokenAssignment.to_be_signed t a tier =
      tier.toU8 :: (i64LeBytes t.timestamp ++ a) := by
    rw [e0, e1, e2, e3]
    rfl
  refine ⟨hmain, ?_⟩
  rw [hmain]
  simp [hle, h]

/-- Concrete evaluation of C6 at the source's own test vector: tier
`Day90` (discriminant 12), timestamp 1627430400 (2021-07-28T00:00:00Z,
hex 0x61009E00) and the all-ones public key. -/
theorem to_be_signed_layout_witness :
    TokenAssignment.to_be_signed ⟨1627430400, 0⟩ (List.replicate 32 1)
      Tier.Day90 =
      [12, 0, 158, 0, 97, 0, 0, 0, 0] ++ List.replicate 32 1 := by
  rw [(to_be_signed_layout ⟨1627430400, 0⟩ (List.replicate 32 1) Tier.Day90
    (by decide)).1]
  decide

/-- C7: against a summary whose per-tier timestamp lists are sorted
ascending, `delta` keeps exactly the tiers present in both the record and
the summary, and under such a tier it keeps, in stored order, exactly the
record's assignments whose epoch-second timestamp is absent from the
summary's list. -/
theorem delta_keys_and_content (r : RecordMap) (s : SummaryMap) (tier : Tier)
    (hs : ∀ l, s tier = some l → l.Pairwise (fun x y : Int => x ≤ y)) :
    (TokenAllocationRecord.delta r s tier = none ↔
      s tier = none ∨ r tier = none) ∧
    (∀ sa ra, s tier = some sa → r tier = some ra →
      TokenAllocationRecord.delta r s tier =
        some (ra.filter fun a => decide (a.time_slot.timestamp ∉ sa))) := by
  constructor
  · unfold TokenAllocationRecord.delta
    cases hst : s tier with
    | none => simp
    | some sa =>
      cases hrt : r tier with
      | none => simp
      | some ra => simp
  · intro sa ra hsa hra
    unfold TokenAllocationRecord.delta
    rw [hsa, hra]
    have hsorted := hs sa hsa
    show some (ra.filter fun a =>
        !(binarySearchTs sa a.time_slot.timestamp).isSome) =
      some (ra.filter fun a => decide (a.time_slot.timestamp ∉ sa))
    congr 1
    apply List.filter_congr
    intro a _
    by_cases hm : a.time_slot.timestamp ∈ sa
    · have hfound : (binarySearchTs sa a.time_slot.timestamp).isSome = true :=
        (binarySearchTs_isSome_iff sa _ hsorted).mpr hm
      rw [hfound]
      simp [hm]
    · have hmiss : (binarySearchTs sa a.time_slot.timestamp).isSome = false := by
        rw [← Bool.not_eq_true]
        intro hcon
        exact hm ((binarySearchTs_isSome_iff sa _ hsorted).mp hcon)
      rw [hmiss]
      simp [hm]

/-- Concrete instantiation of C7: a record holding slots 0 and 60 under
`Min1`, delta-ed against a summary knowing only timestamp 0, yields
exactly the slot-60 assignment; other tiers stay absent. -/
theorem delta_keys_and_content_witness :
    TokenAllocationRecord.delta
      (fun t => match t with
        | Tier.Min1 => some [⟨.Min1, ⟨0, 0⟩, [1], [], [], 0⟩,
            ⟨.Min1, ⟨60, 0⟩, [2], [], [], 0⟩]
        | _ => none)
      (fun t => match t with
        | Tier.Min1 => some [0]
        | _ => none) Tier.Min1 =
      some [⟨.Min1, ⟨60, 0⟩, [2], [], [], 0⟩] := by
  rw [(delta_keys_and_content
    (fun t => match t with
      | Tier.Min1 => some [⟨.Min1, ⟨0, 0⟩, [1], [], [], 0⟩,
          ⟨.Min1, ⟨60, 0⟩, [2], [], [], 0⟩]
      | _ => none)
    (fun t => match t with
      | Tier.Min1 => some [0]
      | _ => none) Tier.Min1
    (by intro l hl; injection hl with h2; subst h2; decide)).2 [0]
    [⟨.Min1, ⟨0, 0⟩, [1], [], [], 0⟩, ⟨.Min1, ⟨60, 0⟩, [2], [], [], 0⟩]
    rfl rfl]
  decide

/-- C8: on a record whose list for the assignment's tier has strictly
increasing slots, `assignment_exists` returns true exactly when the list
holds a structurally equal assignment. -/
theorem assignment_exists_iff_mem (r : RecordMap) (a : TokenAssignment)
    (hs : ∀ l, r a.tier = some l → l.Pairwise slotLT) :
    TokenAllocationRecord.assignment_exists r a = true ↔
      ∃ l, r a.tier = some l ∧ a ∈ l := by
  unfold TokenAllocationRecord.assignment_exists
  split
  · rename_i hnone
    rw [hnone]
    simp
  · rename_i xs hsome
    have hsx := hs xs hsome
    rw [hsome]
    split
    · rename_i hbs
      constructor
      · intro hcon
        exact absurd hcon (by simp)
      · rintro ⟨l, hl, hmem⟩
        injection hl with hl
        subst hl
        exact absurd rfl (binarySearchSlot_none xs a.time_slot hsx hbs a hmem)
    · rename_i i hbs
      obtain ⟨hilen, hslot⟩ := binarySearchSlot_some xs _ i hbs
      constructor
      · intro hdec
        have heq : xs.getD i defaultAssignment = a := of_decide_eq_true hdec
        exact ⟨xs, rfl, heq ▸ getD_mem xs i defaultAssignment hilen⟩
      · rintro ⟨l, hl, hmem⟩
        injection hl with hl
        subst hl
        exact decide_eq_true (pairwise_slot_inj xs hsx _ _
          (getD_mem xs i defaultAssignment hilen) hmem hslot)

/-- Concrete instantiation of C8: an assignment stored under its tier is
found by `assignment_exists`. -/
theorem assignment_exists_iff_mem_witness :
    TokenAllocationRecord.assignment_exists
      (fun t => match t with
        | Tier.Min1 => some [⟨.Min1, ⟨0, 0⟩, [1], [], [], 0⟩,
            ⟨.Min1, ⟨60, 0⟩, [2], [], [], 0⟩]
        | _ => none)
      ⟨.Min1, ⟨0, 0⟩, [1], [], [], 0⟩ = true :=
  (assignment_exists_iff_mem _ _
    (by intro l hl; injection hl with h2; subst h2; decide)).mpr
    ⟨[⟨.Min1, ⟨0, 0⟩, [1], [], [], 0⟩, ⟨.Min1, ⟨60, 0⟩, [2], [], [], 0⟩],
      rfl, by decide⟩
